import Mathlib

/-
Verification development for the speech I/O layer of the Prep-Ai
interview-practice application (source file `src/lib/speech.ts`,
class `SpeechService`).

Strings are modelled as `List Char`; the JavaScript string operations
used by the source (`toLowerCase`, `startsWith`, `includes`, single
character global `replace`, `trim`, the falsy `||` on strings and
numbers) are embedded as executable functions on `List Char`.
JavaScript numbers supplied for rate / pitch / volume are modelled as
rationals; the only arithmetic fact the source relies on is the falsy
test `x || d` (zero is falsy), which is embedded explicitly.
-/

/-- Lowercasing of a JavaScript string (`String.prototype.toLowerCase`),
embedded characterwise; the voice names involved are ASCII. -/
def lowerL (s : List Char) : List Char := s.map Char.toLower

/-- JavaScript `String.prototype.startsWith`: does the first list start
with the second? -/
def startsWithL : List Char → List Char → Bool
  | _, [] => true
  | [], _ :: _ => false
  | a :: as, b :: bs => a == b && startsWithL as bs

/-- JavaScript `String.prototype.includes`: does the first list contain
the second as a contiguous substring? -/
def containsL : List Char → List Char → Bool
  | [], pat => startsWithL [] pat
  | s@(_ :: t), pat => startsWithL s pat || containsL t pat

/-- Test of a regular expression of the shape `/a.*b/` against a string:
an occurrence of `a` followed (at or after its end) by an occurrence of
`b`.  Used for the `/microsoft.*premium/i` quality indicator. -/
def matchesSeq : List Char → List Char → List Char → Bool
  | [], a, b => startsWithL [] a && containsL [] b
  | s@(_ :: t), a, b =>
      (startsWithL s a && containsL (List.drop a.length s) b) || matchesSeq t a b

/-- A platform voice descriptor (`SpeechSynthesisVoice`): the fields the
source reads are `name` and `lang`. -/
structure VoiceDescriptor where
  name : List Char
  lang : List Char
deriving DecidableEq

/-- The language filter used throughout `selectOptimalVoice`:
`voice.lang.toLowerCase().startsWith('en')`. -/
def enTag : List Char := ['e', 'n']

/-- English-language test applied to a voice by `selectOptimalVoice`. -/
def isEnglish (v : VoiceDescriptor) : Bool := startsWithL (lowerL v.lang) enTag

/-- The fixed `preferredVoices` table of `selectOptimalVoice`:
known high-quality voice names with their priorities. -/
def preferredVoices : List (List Char × Nat) :=
  [("Google US English".toList, 10),
   ("Google UK English Female".toList, 9),
   ("Google UK English Male".toList, 8),
   ("Microsoft Zira Desktop".toList, 7),
   ("Microsoft David Desktop".toList, 6),
   ("Microsoft Hazel Desktop".toList, 7),
   ("Microsoft Mark Desktop".toList, 6),
   ("Samantha".toList, 9),
   ("Alex".toList, 8),
   ("Victoria".toList, 7),
   ("Karen".toList, 6),
   ("Moira".toList, 5),
   ("Fiona".toList, 6),
   ("Daniel".toList, 5),
   ("Tessa".toList, 5),
   ("Veena".toList, 4),
   ("Rishi".toList, 4)]

/-- A quality-indicator pattern of `selectOptimalVoice`: either a plain
case-insensitive substring (`/google/i`) or a two-part sequence
(`/microsoft.*premium/i`). -/
inductive QPattern where
  | sub : List Char → QPattern
  | seq : List Char → List Char → QPattern
deriving DecidableEq

/-- Evaluation of a quality-indicator pattern against a voice name
(the `/i` flag is embedded by lowercasing the name; the patterns are
already lower case). -/
def qtest : QPattern → List Char → Bool
  | QPattern.sub p, nm => containsL (lowerL nm) p
  | QPattern.seq a b, nm => matchesSeq (lowerL nm) a b

/-- The `qualityIndicators` table of `selectOptimalVoice`, in source
order (order matters: the scan breaks at the first indicator that both
matches and beats the current priority). -/
def qualityIndicators : List (QPattern × Nat) :=
  [(QPattern.sub ("google".toList), 8),
   (QPattern.seq ("microsoft".toList) ("premium".toList), 7),
   (QPattern.sub ("microsoft".toList), 6),
   (QPattern.sub ("apple".toList), 6),
   (QPattern.sub ("enhanced".toList), 5),
   (QPattern.sub ("natural".toList), 5),
   (QPattern.sub ("neural".toList), 7)]

/-- The `preferredVoices.find(...)` step: first table entry whose
lowercased name occurs in the lowercased voice name. -/
def findPreferred (nm : List Char) : Option (List Char × Nat) :=
  preferredVoices.find? (fun pv => containsL (lowerL nm) (lowerL pv.1))

/-- The inner quality-indicator loop: the first indicator (in table
order) that matches the name and strictly beats the running highest
priority — the source loop breaks as soon as this condition holds. -/
def findQuality (nm : List Char) (hp : Nat) : Option (QPattern × Nat) :=
  qualityIndicators.find? (fun ind => qtest ind.1 nm && decide (hp < ind.2))

/-- One iteration of the main `for (const voice of this.voices)` loop of
`selectOptimalVoice`, threading the `(bestVoice, highestPriority)`
accumulator: non-English voices are skipped; a preferred-name match that
beats the running priority wins and short-circuits (`continue`);
otherwise the quality indicators are tried. -/
def scanVoice (acc : Option VoiceDescriptor × Nat) (v : VoiceDescriptor) :
    Option VoiceDescriptor × Nat :=
  if isEnglish v = false then acc
  else
    match findPreferred v.name with
    | some pv =>
        if acc.2 < pv.2 then (some v, pv.2)
        else
          match findQuality v.name acc.2 with
          | some ind => (some v, ind.2)
          | none => acc
    | none =>
        match findQuality v.name acc.2 with
        | some ind => (some v, ind.2)
        | none => acc

/-- The feminine-marker fallback filter of `selectOptimalVoice`:
English voices whose name contains `female` or `woman`. -/
def hasFeminineMarker (v : VoiceDescriptor) : Bool :=
  isEnglish v &&
    (containsL (lowerL v.name) ("female".toList) ||
     containsL (lowerL v.name) ("woman".toList))

/-- Shallow embedding of `SpeechService.selectOptimalVoice`: empty-set
guard, the priority scan, then the two fallback `find` calls — both of
which filter to English voices (`undefined` and `null` are both `none`). -/
def selectOptimalVoice (voices : List VoiceDescriptor) : Option VoiceDescriptor :=
  if voices.length = 0 then none
  else
    match (voices.foldl scanVoice (none, 0)).1 with
    | some v => some v
    | none =>
        match voices.find? hasFeminineMarker with
        | some v => some v
        | none => voices.find? isEnglish

example : selectOptimalVoice [⟨"Samantha".toList, "en-US".toList⟩] =
    some ⟨"Samantha".toList, "en-US".toList⟩ := by decide

example : selectOptimalVoice
    [⟨"Amelie".toList, "fr-FR".toList⟩, ⟨"Plain Voice".toList, "en-GB".toList⟩] =
    some ⟨"Plain Voice".toList, "en-GB".toList⟩ := by decide

example : selectOptimalVoice [⟨"Amelie".toList, "fr-FR".toList⟩] = none := by decide

/-- JavaScript whitespace test used by `String.prototype.trim`
(restricted to the ASCII whitespace characters that can occur in
recognition transcripts). -/
def isJsWs (c : Char) : Bool := c = ' ' || c = '\t' || c = '\n' || c = '\r'

/-- JavaScript `String.prototype.trim`: drop whitespace from both ends. -/
def trimL (s : List Char) : List Char :=
  ((s.dropWhile isJsWs).reverse.dropWhile isJsWs).reverse

/-- JavaScript `a || b` on strings: the empty string is the only falsy
string, so the result is `b` when `a` is empty and `a` otherwise. -/
def jsStrOr (a b : List Char) : List Char := if a = [] then b else a

/-- Settlement of the promise returned by `startListening`: resolution
with a transcript, or rejection with an error code. -/
inductive ListenOutcome where
  | resolved : List Char → ListenOutcome
  | rejected : List Char → ListenOutcome
deriving DecidableEq

/-- State of one listening operation of `SpeechService.startListening`:
the service-level `isListening` flag together with the promise-local
accumulators `finalTranscript` / `interimTranscript`, the pending safety
timeout (`timeoutId`, as the scheduled delay), and the settlement of the
returned promise (`none` while pending). -/
structure ListenOp where
  isListening : Bool
  finalT : List Char
  interimT : List Char
  timerMs : Option Nat
  outcome : Option ListenOutcome
deriving DecidableEq

/-- State at the moment `startListening` has installed its handlers:
flag down, both transcripts empty, no timer, promise pending. -/
def initOp : ListenOp :=
  { isListening := false, finalT := [], interimT := [], timerMs := none,
    outcome := none }

/-- The safety-timeout delay passed to `setTimeout` in the `onstart`
handler: 30000 milliseconds. -/
def timeoutDelayMs : Nat := 30000

/-- A platform recognition event delivered to the handlers installed by
`startListening`.  An `onResult` event carries the fragments
`event.results[i][0].transcript` with their `isFinal` flags for
`i = event.resultIndex .. event.results.length - 1`, in index order. -/
inductive RecEvent where
  | onStart : RecEvent
  | onResult : List (List Char × Bool) → RecEvent
  | onEnd : RecEvent
  | onError : List Char → RecEvent
deriving DecidableEq

/-- One iteration of the `onresult` fragment loop: a final fragment is
appended to `finalTranscript`, an interim one to `interimTranscript`. -/
def applyFrag (s : ListenOp) (f : List Char × Bool) : ListenOp :=
  if f.2 then { s with finalT := s.finalT ++ f.1 }
  else { s with interimT := s.interimT ++ f.1 }

/-- The four handlers installed by `startListening`, as a step function
on the operation state.  `onstart` raises the flag and schedules the
30-second safety timeout; `onresult` clears the interim transcript and
folds the event's fragments; `onend` lowers the flag, clears the timer
and resolves with `finalTranscript.trim() || interimTranscript.trim()`;
`onerror` lowers the flag, clears the timer and rejects. -/
def stepEvent (s : ListenOp) : RecEvent → ListenOp
  | RecEvent.onStart =>
      { s with
        isListening := true,
        timerMs := some timeoutDelayMs }
  | RecEvent.onResult frags => frags.foldl applyFrag { s with interimT := [] }
  | RecEvent.onEnd =>
      { s with
        isListening := false,
        timerMs := none,
        outcome := some (ListenOutcome.resolved (jsStrOr (trimL s.finalT) (trimL s.interimT))) }
  | RecEvent.onError code =>
      { s with
        isListening := false,
        timerMs := none,
        outcome := some (ListenOutcome.rejected code) }

/-- A sequence of platform events processed by the installed handlers. -/
def runEvents (s : ListenOp) (evs : List RecEvent) : ListenOp :=
  evs.foldl stepEvent s

/-- Events at which the promise returned by `startListening` settles:
`onend` (resolution — also the path taken, via `recognition.stop()`, by
manual `stopListening` and by the safety timeout) and `onerror`
(rejection). -/
def isSettleEvent : RecEvent → Bool
  | RecEvent.onEnd => true
  | RecEvent.onError _ => true
  | _ => false

/-- The `catch` branch of `startListening` around `recognition.start()`:
the flag is forced down and the promise is rejected with the thrown
error. -/
def startCallThrown (s : ListenOp) (err : List Char) : ListenOp :=
  { s with
    isListening := false,
    outcome := some (ListenOutcome.rejected err) }

/-- The `isCurrentlyListening` query: returns the `isListening` flag. -/
def isCurrentlyListening (s : ListenOp) : Bool := s.isListening

/-- The `stopListening` method: it calls `recognition.stop()` only while
the `isListening` flag is up; the platform answers a `stop()` call with
an `onend` event, which is the event embedded here (the method itself
neither settles the promise nor touches the flag — both happen in the
`onend` handler). -/
def stopListeningModel (s : ListenOp) : ListenOp :=
  if s.isListening then stepEvent s RecEvent.onEnd else s

/-- The `setTimeout` callback scheduled by `onstart` after
`timeoutDelayMs` milliseconds: it invokes `stopListening`. -/
def fireTimeout (s : ListenOp) : ListenOp := stopListeningModel s

/-- The result events of a listening session in which the platform never
signals end naturally, as an event list. -/
def resultEvents (frs : List (List (List Char × Bool))) : List RecEvent :=
  frs.map RecEvent.onResult

/-- Specification-side accumulator: the concatenation, in order, of all
fragments marked final across a whole sequence of result events. -/
def finalsOf (frs : List (List (List Char × Bool))) : List Char :=
  frs.flatMap (fun frags => frags.flatMap (fun f => if f.2 then f.1 else []))

/-- Specification-side accumulator: the concatenation of the interim
(non-final) fragments of one result event. -/
def interimOf (frags : List (List Char × Bool)) : List Char :=
  frags.flatMap (fun f => if f.2 then [] else f.1)

/-- Specification-side accumulator: the interim fragments of the last
result event of the session (empty when there was none). -/
def lastInterimOf : List (List (List Char × Bool)) → List Char
  | [] => []
  | [frags] => interimOf frags
  | _ :: g :: gs => lastInterimOf (g :: gs)

example :
    (stepEvent (runEvents initOp
        [RecEvent.onStart,
         RecEvent.onResult [("he".toList, false)],
         RecEvent.onResult [("hello ".toList, true), ("wor".toList, false)]])
      RecEvent.onEnd).outcome = some (ListenOutcome.resolved ("hello".toList)) := by decide

example :
    (stepEvent (runEvents initOp
        [RecEvent.onStart, RecEvent.onResult [([' '], true), ("hello".toList, false)]])
      RecEvent.onEnd).outcome = some (ListenOutcome.resolved ("hello".toList)) := by decide

/-- The punctuation characters after which `speak` inserts a pause
space: `. , ? ! : ;`. -/
def pausePunct : List Char := ['.', ',', '?', '!', ':', ';']

/-- One global single-character `String.prototype.replace(/c/g, "c ")`:
every occurrence of `c` becomes `c` followed by a space. -/
def replOne (c : Char) (s : List Char) : List Char :=
  s.flatMap (fun x => if x = c then [x, ' '] else [x])

/-- The text normalization performed by `speak` before speaking: the six
chained `replace` calls of the source, innermost (`.`) first. -/
def normalizePauses (s : List Char) : List Char :=
  replOne ';' (replOne ':' (replOne '!' (replOne '?' (replOne ',' (replOne '.' s)))))

/-- Specification-side characterization of one normalization pass as a
characterwise expansion: a pause-punctuation character gains one
following space, every other character is kept as is. -/
def pauseExpand (c : Char) : List Char :=
  if c ∈ pausePunct then [c, ' '] else [c]

/-- Specification-side characterization of two normalization passes: a
pause-punctuation character gains two following spaces, every other
character is kept as is. -/
def pauseExpandTwice (c : Char) : List Char :=
  if c ∈ pausePunct then [c, ' ', ' '] else [c]

example : normalizePauses ("Hi. How are you?".toList) =
    ("Hi.  How are you? ".toList) := by decide

/-- Caller options of `speak`: each acoustic parameter may be absent. -/
structure SpeakOptions where
  rate : Option ℚ
  pitch : Option ℚ
  volume : Option ℚ
deriving DecidableEq

/-- JavaScript `x || d` on numbers: `0` is falsy, so a supplied `0`
yields the default `d` (`NaN`, the other falsy number, cannot reach this
code path from a rational literal and is not modelled). -/
def jsNumOr (o : Option ℚ) (d : ℚ) : ℚ :=
  match o with
  | none => d
  | some x => if x = 0 then d else x

/-- The utterance (`SpeechSynthesisUtterance`) handed to the platform by
`speak`: selected voice, the three acoustic parameters after default
resolution, and the normalized text. -/
structure Utterance where
  text : List Char
  voice : Option VoiceDescriptor
  rate : ℚ
  pitch : ℚ
  volume : ℚ
deriving DecidableEq

/-- Construction of the utterance inside `speak`:
`rate = options.rate || 0.9`, `pitch = options.pitch || 1.0`,
`volume = options.volume || 0.85`, text normalized by the pause
transform, voice as currently selected. -/
def mkUtterance (text : List Char) (opts : SpeakOptions)
    (selected : Option VoiceDescriptor) : Utterance :=
  { text := normalizePauses text,
    voice := selected,
    rate := jsNumOr opts.rate ((9 : ℚ)/10),
    pitch := jsNumOr opts.pitch 1,
    volume := jsNumOr opts.volume ((17 : ℚ)/20) }

/-- A call issued by `speak` to the platform synthesis object. -/
inductive SynthCall where
  | cancel : SynthCall
  | speakUtt : Utterance → SynthCall
deriving DecidableEq

/-- Immediate settlement of the promise returned by `speak`: `none`
while pending on platform callbacks, `some true` for an immediate
resolution. -/
def SpeakSettle : Type := Option Bool

/-- Shallow embedding of `SpeechService.speak`: empty text resolves at
once without touching the platform; otherwise `cancel()` is issued, the
utterance is built and handed to `synthesis.speak`, and the promise
stays pending until a platform callback fires. -/
def speakModel (text : List Char) (opts : SpeakOptions)
    (selected : Option VoiceDescriptor) : List SynthCall × Option Bool :=
  if text = [] then ([], some true)
  else ([SynthCall.cancel, SynthCall.speakUtt (mkUtterance text opts selected)], none)

/-- A `SpeechService` instance as far as the support queries and the
`startListening` entry guards observe it: whether the constructor found
a recognition capability, whether the window has `speechSynthesis`, and
the current listening-operation state. -/
structure SpeechService where
  recognitionSupported : Bool
  synthesisSupported : Bool
  op : ListenOp
deriving DecidableEq

/-- The constructor path through `initializeSpeechRecognition`: the
recognition object exists when `window.SpeechRecognition` or
`window.webkitSpeechRecognition` exists; synthesis support mirrors
`speechSynthesis in window`. -/
def mkService (hasRec hasWebkitRec hasSynth : Bool) : SpeechService :=
  { recognitionSupported := hasRec || hasWebkitRec,
    synthesisSupported := hasSynth,
    op := initOp }

/-- The `isSpeechSupported` query:
`!!this.recognition && 'speechSynthesis' in window`. -/
def isSpeechSupported (s : SpeechService) : Bool :=
  s.recognitionSupported && s.synthesisSupported

/-- The rejection reasons of the entry guards of `startListening`. -/
inductive StartErr where
  | unsupported : StartErr
  | alreadyListening : StartErr
deriving DecidableEq

/-- The synchronous entry of `startListening`: reject with the
unsupported error when no recognition object exists, reject with the
already-listening error while a listening operation is in progress —
both without touching the service state — and otherwise begin a fresh
operation with empty transcripts and a pending promise. -/
def startListeningEntry (s : SpeechService) : SpeechService × Option StartErr :=
  if s.recognitionSupported = false then (s, some StartErr.unsupported)
  else if s.op.isListening then (s, some StartErr.alreadyListening)
  else ({ s with op := initOp }, none)

/-- One `replace` call on a cons cell expands its head characterwise. -/
theorem replOne_cons (c x : Char) (xs : List Char) :
    replOne c (x :: xs) = (if x = c then [x, ' '] else [x]) ++ replOne c xs := by
  simp [replOne]

/-- One `replace` call distributes over concatenation. -/
theorem replOne_append (c : Char) (a b : List Char) :
    replOne c (a ++ b) = replOne c a ++ replOne c b := by
  simp [replOne]

/-- The pause normalization distributes over concatenation. -/
theorem normalizePauses_append (a b : List Char) :
    normalizePauses (a ++ b) = normalizePauses a ++ normalizePauses b := by
  simp [normalizePauses, replOne_append]

/-- On a single character the six chained `replace` calls coincide with
the characterwise expansion. -/
theorem normalizePauses_single (x : Char) :
    normalizePauses [x] = pauseExpand x := by
  by_cases h1 : x = '.'
  · subst h1; decide
  by_cases h2 : x = ','
  · subst h2; decide
  by_cases h3 : x = '?'
  · subst h3; decide
  by_cases h4 : x = '!'
  · subst h4; decide
  by_cases h5 : x = ':'
  · subst h5; decide
  by_cases h6 : x = ';'
  · subst h6; decide
  simp [normalizePauses, replOne, pauseExpand, pausePunct, h1, h2, h3, h4, h5, h6]

/-- One normalization pass is the characterwise pause expansion. -/
theorem normalizePauses_eq_flatMap (s : List Char) :
    normalizePauses s = s.flatMap pauseExpand := by
  induction s with
  | nil => rfl
  | cons x xs ih =>
      calc normalizePauses (x :: xs) = normalizePauses ([x] ++ xs) := rfl
      _ = normalizePauses [x] ++ normalizePauses xs := normalizePauses_append _ _
      _ = pauseExpand x ++ xs.flatMap pauseExpand := by rw [normalizePauses_single, ih]
      _ = (x :: xs).flatMap pauseExpand := (List.flatMap_cons x xs pauseExpand).symm

/-- Expanding an already expanded character adds exactly one more
space after a pause-punctuation character and nothing elsewhere. -/
theorem pauseExpand_flatMap (x : Char) :
    (pauseExpand x).flatMap pauseExpand = pauseExpandTwice x := by
  by_cases hx : x ∈ pausePunct
  · have hs : (' ' : Char) ∉ pausePunct := by decide
    simp [pauseExpand, pauseExpandTwice, hx, hs]
  · simp [pauseExpand, pauseExpandTwice, hx]

/-- Two normalization passes are the characterwise double expansion. -/
theorem normalizePauses_twice (s : List Char) :
    normalizePauses (normalizePauses s) = s.flatMap pauseExpandTwice := by
  rw [normalizePauses_eq_flatMap, normalizePauses_eq_flatMap, List.flatMap_assoc]
  have h : (fun x => (pauseExpand x).flatMap pauseExpand) = pauseExpandTwice :=
    funext pauseExpand_flatMap
  rw [h]

/-- The fragment loop of one `onresult` event appends the final
fragments to the final transcript, appends the interim fragments to the
interim transcript, and touches nothing else. -/
theorem applyFrags_spec (frags : List (List Char × Bool)) : ∀ (s : ListenOp),
    (frags.foldl applyFrag s).finalT =
        s.finalT ++ frags.flatMap (fun f => if f.2 then f.1 else []) ∧
    (frags.foldl applyFrag s).interimT = s.interimT ++ interimOf frags ∧
    (frags.foldl applyFrag s).isListening = s.isListening ∧
    (frags.foldl applyFrag s).timerMs = s.timerMs ∧
    (frags.foldl applyFrag s).outcome = s.outcome := by
  induction frags with
  | nil => intro s; simp [interimOf]
  | cons f fs ih =>
      intro s
      obtain ⟨h1, h2, h3, h4, h5⟩ := ih (applyFrag s f)
      rw [List.foldl_cons]
      refine ⟨?_, ?_, ?_, ?_, ?_⟩
      · rw [h1]; cases hf : f.2 <;> simp [applyFrag, hf, List.append_assoc]
      · rw [h2]; cases hf : f.2 <;> simp [applyFrag, hf, interimOf, List.append_assoc]
      · rw [h3]; cases hf : f.2 <;> simp [applyFrag, hf]
      · rw [h4]; cases hf : f.2 <;> simp [applyFrag, hf]
      · rw [h5]; cases hf : f.2 <;> simp [applyFrag, hf]

/-- Processing a sequence of result events accumulates the final
fragments, replaces the interim transcript by the interim fragments of
the last event, and leaves flag, timer and settlement unchanged. -/
theorem resultsRun_spec (frs : List (List (List Char × Bool))) : ∀ (s : ListenOp),
    ((resultEvents frs).foldl stepEvent s).finalT = s.finalT ++ finalsOf frs ∧
    ((resultEvents frs).foldl stepEvent s).interimT =
        (match frs with | [] => s.interimT | _ :: _ => lastInterimOf frs) ∧
    ((resultEvents frs).foldl stepEvent s).isListening = s.isListening ∧
    ((resultEvents frs).foldl stepEvent s).timerMs = s.timerMs ∧
    ((resultEvents frs).foldl stepEvent s).outcome = s.outcome := by
  induction frs with
  | nil => intro s; simp [resultEvents, finalsOf]
  | cons frags rest ih =>
      intro s
      obtain ⟨h1, h2, h3, h4, h5⟩ := ih (stepEvent s (RecEvent.onResult frags))
      obtain ⟨a1, a2, a3, a4, a5⟩ :=
        applyFrags_spec frags { s with interimT := [] }
      have hstep : stepEvent s (RecEvent.onResult frags) =
          frags.foldl applyFrag { s with interimT := [] } := rfl
      have hre : resultEvents (frags :: rest) =
          RecEvent.onResult frags :: resultEvents rest := rfl
      rw [hre, List.foldl_cons]
      refine ⟨?_, ?_, ?_, ?_, ?_⟩
      · rw [h1, hstep, a1]
        simp [finalsOf, List.append_assoc]
      · rw [h2]
        cases rest with
        | nil => rw [hstep, a2]; simp [lastInterimOf]
        | cons g gs => simp [lastInterimOf]
      · rw [h3, hstep, a3]
      · rw [h4, hstep, a4]
      · rw [h5, hstep, a5]

/-- A voice list with no English voice leaves the scan accumulator of
`selectOptimalVoice` untouched. -/
theorem foldl_scan_no_english (vs : List VoiceDescriptor) :
    ∀ acc : Option VoiceDescriptor × Nat, (∀ v ∈ vs, isEnglish v = false) →
      vs.foldl scanVoice acc = acc := by
  induction vs with
  | nil => intro acc _; rfl
  | cons x xs ih =>
      intro acc h
      have hx : isEnglish x = false := h x (List.mem_cons_self x xs)
      have hstep : scanVoice acc x = acc := by simp [scanVoice, hx]
      rw [List.foldl_cons, hstep]
      exact ih acc (fun v hv => h v (List.mem_cons_of_mem x hv))

/-- A concrete non-English voice descriptor. -/
def frVoice : VoiceDescriptor := { name := "Amelie".toList, lang := "fr-FR".toList }

/-- A concrete preferred English voice descriptor. -/
def samanthaVoice : VoiceDescriptor := { name := "Samantha".toList, lang := "en-US".toList }

/-- C1 (counterexample): the claim that `selectBestVoice` returns some
voice for every non-empty descriptor set is false — a non-empty set
containing only a non-English voice yields `none`, because both fallback
`find` calls filter to voices whose language tag starts with `en` and
there is no first-available-voice fallback in the code. -/
theorem selectBestVoice_nonempty_total_counterexample :
    ([frVoice] ≠ ([] : List VoiceDescriptor)) ∧
    selectOptimalVoice [frVoice] = none := by
  exact ⟨by decide, by decide⟩

/-- C1 (amended): `selectBestVoice` returns some voice exactly when the
available set contains at least one voice whose language tag starts with
`en` (case-insensitively); it returns `none` when the set is empty or
contains no such English voice — the claimed final fallback to the first
available voice does not exist. -/
theorem selectBestVoice_some_iff_english_voice (vs : List VoiceDescriptor) :
    (selectOptimalVoice vs).isSome = true ↔ ∃ v ∈ vs, isEnglish v = true := by
  constructor
  · intro h
    by_contra hno
    push_neg at hno
    simp only [Bool.not_eq_true] at hno
    have hfold := foldl_scan_no_english vs (none, 0) hno
    have hfem : vs.find? hasFeminineMarker = none := by
      rw [List.find?_eq_none]
      intro v hv
      simp [hasFeminineMarker, hno v hv]
    have hen : vs.find? isEnglish = none := by
      rw [List.find?_eq_none]
      intro v hv
      simp [hno v hv]
    have hnone : selectOptimalVoice vs = none := by
      rw [selectOptimalVoice]
      by_cases hlen : vs.length = 0
      · simp [hlen]
      · simp [hlen, hfold, hfem, hen]
    rw [hnone] at h
    simp at h
  · rintro ⟨v, hv, henv⟩
    have hne : vs ≠ [] := List.ne_nil_of_mem hv
    have hlen : ¬ vs.length = 0 := by simpa [List.length_eq_zero] using hne
    rw [selectOptimalVoice, if_neg hlen]
    rcases hsc : (vs.foldl scanVoice (none, 0)).1 with _ | w
    · rcases hfem : vs.find? hasFeminineMarker with _ | w
      · rcases hfen : vs.find? isEnglish with _ | w
        · exfalso
          rw [List.find?_eq_none] at hfen
          exact (hfen v hv) henv
        · simp [hsc, hfem, hfen]
      · simp [hsc, hfem]
    · simp [hsc]

/-- C2: the listening flag is cleared on every path that settles the
promise returned by `startListening`.  First conjunct: after any event
sequence ending in a settling platform event (`onend` — the path taken
by natural end, and, via `recognition.stop()`, by manual `stopListening`
and by the safety timeout — or `onerror`), the promise is settled and
`isCurrentlyListening` is false.  Second conjunct: the same holds on the
remaining settling path, the `catch` around `recognition.start()`. -/
theorem listening_flag_cleared_on_settle :
    (∀ (pre : List RecEvent) (e : RecEvent), isSettleEvent e = true →
        isCurrentlyListening (runEvents initOp (pre ++ [e])) = false ∧
        (runEvents initOp (pre ++ [e])).outcome.isSome = true) ∧
    (∀ (s : ListenOp) (err : List Char),
        isCurrentlyListening (startCallThrown s err) = false ∧
        (startCallThrown s err).outcome.isSome = true) := by
  constructor
  · intro pre e he
    have hsplit : runEvents initOp (pre ++ [e]) = stepEvent (runEvents initOp pre) e := by
      simp [runEvents, List.foldl_append]
    rw [hsplit]
    cases e with
    | onEnd => exact ⟨rfl, rfl⟩
    | onError c => exact ⟨rfl, rfl⟩
    | onStart => simp [isSettleEvent] at he
    | onResult frags => simp [isSettleEvent] at he
  · intro s err
    exact ⟨rfl, rfl⟩

/-- C2 witness: a concrete listening session that starts, receives a
final fragment and ends naturally has a settled promise and a lowered
flag. -/
theorem listening_flag_cleared_on_settle_witness :
    isCurrentlyListening (runEvents initOp
      ([RecEvent.onStart, RecEvent.onResult [("hi".toList, true)]] ++ [RecEvent.onEnd])) = false ∧
    (runEvents initOp
      ([RecEvent.onStart, RecEvent.onResult [("hi".toList, true)]] ++ [RecEvent.onEnd])).outcome.isSome = true :=
  listening_flag_cleared_on_settle.1
    [RecEvent.onStart, RecEvent.onResult [("hi".toList, true)]] RecEvent.onEnd (by decide)

/-- C3: for every listening session that has successfully begun
(`onstart` fired) and in which the platform delivers only result events
and never signals end naturally, the safety timeout is pending with the
fixed 30000 millisecond delay, and firing it (its callback invokes
`stopListening`, whose `recognition.stop()` call the platform answers
with `onend`) settles the promise and lowers the flag — the operation
cannot hang the turn loop forever. -/
theorem startListening_timeout_forces_settlement (frs : List (List (List Char × Bool))) :
    timeoutDelayMs = 30000 ∧
    (runEvents initOp (RecEvent.onStart :: resultEvents frs)).timerMs = some timeoutDelayMs ∧
    isCurrentlyListening (runEvents initOp (RecEvent.onStart :: resultEvents frs)) = true ∧
    (fireTimeout (runEvents initOp (RecEvent.onStart :: resultEvents frs))).outcome.isSome = true ∧
    isCurrentlyListening (fireTimeout (runEvents initOp (RecEvent.onStart :: resultEvents frs))) = false := by
  obtain ⟨-, -, h3, h4, -⟩ := resultsRun_spec frs (stepEvent initOp RecEvent.onStart)
  have hrun : runEvents initOp (RecEvent.onStart :: resultEvents frs) =
      (resultEvents frs).foldl stepEvent (stepEvent initOp RecEvent.onStart) := by
    rw [runEvents, List.foldl_cons]
  have hflag : (runEvents initOp (RecEvent.onStart :: resultEvents frs)).isListening = true := by
    rw [hrun, h3]; rfl
  have htimer : (runEvents initOp (RecEvent.onStart :: resultEvents frs)).timerMs =
      some timeoutDelayMs := by
    rw [hrun, h4]; rfl
  refine ⟨rfl, htimer, hflag, ?_, ?_⟩
  · simp [fireTimeout, stopListeningModel, hflag, stepEvent]
  · simp [fireTimeout, stopListeningModel, hflag, stepEvent, isCurrentlyListening]

/-- C4: `selectBestVoice` is deterministic — for a fixed descriptor set,
two calls on that same set return the same voice.  In this embedding the
function is pure (it reads nothing but its argument: the tables are
constants and the scan order is the fixed list order), so equal inputs
give equal outputs. -/
theorem selectBestVoice_deterministic (vs1 vs2 : List VoiceDescriptor) (h : vs1 = vs2) :
    selectOptimalVoice vs1 = selectOptimalVoice vs2 := by
  rw [h]

/-- C4 witness: two consecutive calls on a concrete descriptor set agree
(and the common value is the expected voice). -/
theorem selectBestVoice_deterministic_witness :
    selectOptimalVoice [samanthaVoice] = selectOptimalVoice [samanthaVoice] ∧
    selectOptimalVoice [samanthaVoice] = some samanthaVoice :=
  ⟨selectBestVoice_deterministic [samanthaVoice] [samanthaVoice] rfl, by decide⟩

/-- Concrete `speak` options supplying an explicit rate of zero. -/
def zeroRateOpts : SpeakOptions := { rate := some 0, pitch := none, volume := none }

/-- C5 (counterexample): the claim that caller-supplied acoustic values
always override the defaults, including a supplied 0, is false — the
source resolves each parameter with the falsy `||` operator, so a
supplied rate of 0 is replaced by the default 0.9. -/
theorem speak_zero_option_counterexample :
    zeroRateOpts.rate = some 0 ∧
    (mkUtterance ("hi".toList) zeroRateOpts none).rate = (9 : ℚ)/10 ∧
    (9 : ℚ)/10 ≠ 0 := by
  refine ⟨rfl, ?_, by norm_num⟩
  simp [mkUtterance, zeroRateOpts, jsNumOr]

/-- C5 (amended): each acoustic parameter of the utterance equals the
caller-supplied value whenever that value is supplied and nonzero, and
equals the default (rate 0.9, pitch 1.0, volume 0.85) when the caller
supplies none — or supplies 0, which the falsy `||` treats as absent. -/
theorem speak_acoustic_parameter_resolution (t : List Char) (o : SpeakOptions)
    (sel : Option VoiceDescriptor) :
    ((o.rate = none ∨ o.rate = some 0) → (mkUtterance t o sel).rate = (9 : ℚ)/10) ∧
    (∀ r : ℚ, o.rate = some r → r ≠ 0 → (mkUtterance t o sel).rate = r) ∧
    ((o.pitch = none ∨ o.pitch = some 0) → (mkUtterance t o sel).pitch = 1) ∧
    (∀ p : ℚ, o.pitch = some p → p ≠ 0 → (mkUtterance t o sel).pitch = p) ∧
    ((o.volume = none ∨ o.volume = some 0) → (mkUtterance t o sel).volume = (17 : ℚ)/20) ∧
    (∀ w : ℚ, o.volume = some w → w ≠ 0 → (mkUtterance t o sel).volume = w) := by
  refine ⟨?_, ?_, ?_, ?_, ?_, ?_⟩
  · rintro (h | h) <;> simp [mkUtterance, jsNumOr, h]
  · intro r hr hr0; simp [mkUtterance, jsNumOr, hr, hr0]
  · rintro (h | h) <;> simp [mkUtterance, jsNumOr, h]
  · intro p hp hp0; simp [mkUtterance, jsNumOr, hp, hp0]
  · rintro (h | h) <;> simp [mkUtterance, jsNumOr, h]
  · intro w hw hw0; simp [mkUtterance, jsNumOr, hw, hw0]

/-- C5 witness: with rate 1/2 supplied, pitch absent and volume 0
supplied, the utterance carries rate 1/2, the default pitch 1 and the
default volume 0.85. -/
theorem speak_acoustic_parameter_resolution_witness :
    (mkUtterance ("hi".toList)
      { rate := some ((1 : ℚ)/2), pitch := none, volume := some 0 } none).rate = (1 : ℚ)/2 ∧
    (mkUtterance ("hi".toList)
      { rate := some ((1 : ℚ)/2), pitch := none, volume := some 0 } none).pitch = 1 ∧
    (mkUtterance ("hi".toList)
      { rate := some ((1 : ℚ)/2), pitch := none, volume := some 0 } none).volume = (17 : ℚ)/20 :=
  ⟨(speak_acoustic_parameter_resolution _ _ _).2.1 ((1 : ℚ)/2) rfl (by norm_num),
   (speak_acoustic_parameter_resolution _ _ _).2.2.1 (Or.inl rfl),
   (speak_acoustic_parameter_resolution _ _ _).2.2.2.2.1 (Or.inr rfl)⟩

/-- C6: the entry guards of `startListening`: without a recognition
capability the call rejects with the unsupported error, and while a
listening operation is in progress it rejects with the already-listening
error; in both cases the service state — including the current
operation's transcripts, flag and pending promise — is returned
untouched. -/
theorem startListening_entry_guards (s : SpeechService) :
    (s.recognitionSupported = false → startListeningEntry s = (s, some StartErr.unsupported)) ∧
    (s.recognitionSupported = true → s.op.isListening = true →
      startListeningEntry s = (s, some StartErr.alreadyListening)) := by
  constructor
  · intro h; simp [startListeningEntry, h]
  · intro h hl; simp [startListeningEntry, h, hl]

/-- A service whose constructor found recognition support and which is
in the middle of a listening operation. -/
def busyService : SpeechService :=
  { recognitionSupported := true,
    synthesisSupported := true,
    op := { initOp with isListening := true } }

/-- C6 witness: the two guards evaluated on concrete services — a
recognition-less service rejects as unsupported, a busy service rejects
as already listening, both unchanged. -/
theorem startListening_entry_guards_witness :
    startListeningEntry (mkService false false true) =
      (mkService false false true, some StartErr.unsupported) ∧
    startListeningEntry busyService = (busyService, some StartErr.alreadyListening) :=
  ⟨(startListening_entry_guards (mkService false false true)).1 rfl,
   (startListening_entry_guards busyService).2 rfl rfl⟩

/-- Characterization of the value a normally ending listening session
resolves with, in terms of the event history: the trimmed concatenation
of all fragments marked final or, when that trimmed concatenation is
empty, the trimmed concatenation of the interim fragments of the last
result event. -/
theorem listen_result_resolution_aux (frs : List (List (List Char × Bool))) :
    (stepEvent (runEvents initOp (RecEvent.onStart :: resultEvents frs)) RecEvent.onEnd).outcome =
      some (ListenOutcome.resolved
        (jsStrOr (trimL (finalsOf frs)) (trimL (lastInterimOf frs)))) := by
  obtain ⟨h1, h2, -, -, -⟩ := resultsRun_spec frs (stepEvent initOp RecEvent.onStart)
  have hrun : runEvents initOp (RecEvent.onStart :: resultEvents frs) =
      (resultEvents frs).foldl stepEvent (stepEvent initOp RecEvent.onStart) := by
    rw [runEvents, List.foldl_cons]
  have h1' : (runEvents initOp (RecEvent.onStart :: resultEvents frs)).finalT =
      finalsOf frs := by
    rw [hrun, h1]; rfl
  have h2' : (runEvents initOp (RecEvent.onStart :: resultEvents frs)).interimT =
      lastInterimOf frs := by
    rw [hrun, h2]
    cases frs with
    | nil => rfl
    | cons g gs => rfl
  simp [stepEvent, h1', h2']

/-- C7 (amended): on normal end the resolved result is the trimmed
concatenation of the fragments marked final when that is non-empty after
trimming, and otherwise the trimmed concatenation of the interim
fragments of the last result event — the fallback condition is emptiness
of the trimmed final transcript, not the absence of final fragments; the
empty string is a possible valid result (second conjunct). -/
theorem listen_result_resolution :
    (∀ frs : List (List (List Char × Bool)),
      (stepEvent (runEvents initOp (RecEvent.onStart :: resultEvents frs)) RecEvent.onEnd).outcome =
        some (ListenOutcome.resolved
          (jsStrOr (trimL (finalsOf frs)) (trimL (lastInterimOf frs))))) ∧
    (stepEvent (runEvents initOp [RecEvent.onStart]) RecEvent.onEnd).outcome =
      some (ListenOutcome.resolved []) :=
  ⟨listen_result_resolution_aux, by decide⟩

/-- A result event whose final fragment is whitespace only and whose
interim fragment is non-empty. -/
def wsFinalFrags : List (List Char × Bool) := [([' '], true), ("hello".toList, false)]

/-- C7 (counterexample): the claim that the interim transcript is used
only when no fragment was ever marked final is false — in this session a
fragment is marked final, its trimmed concatenation is the empty string,
and the session resolves with the interim transcript rather than that
trimmed final transcript, because the source tests
`finalTranscript.trim() || interimTranscript.trim()` for emptiness, not
for the existence of final fragments. -/
theorem listen_result_final_marker_counterexample :
    (stepEvent (runEvents initOp [RecEvent.onStart, RecEvent.onResult wsFinalFrags])
        RecEvent.onEnd).outcome = some (ListenOutcome.resolved ("hello".toList)) ∧
    wsFinalFrags.any (fun f => f.2) = true ∧
    trimL (finalsOf [wsFinalFrags]) = [] ∧
    ("hello".toList : List Char) ≠ trimL (finalsOf [wsFinalFrags]) := by
  refine ⟨by decide, by decide, by decide, by decide⟩

/-- C8: the pause normalization of `speak` is the pure characterwise
transform inserting one space after every occurrence of the punctuation
characters `. , ? ! : ;` (first conjunct); re-applying it adds exactly
one further space after each such punctuation character and leaves
everything else unchanged (second conjunct); in particular it is not
idempotent (third conjunct). -/
theorem speak_normalization_characterized :
    (∀ s : List Char, normalizePauses s = s.flatMap pauseExpand) ∧
    (∀ s : List Char, normalizePauses (normalizePauses s) = s.flatMap pauseExpandTwice) ∧
    normalizePauses (normalizePauses ("Hi.".toList)) ≠ normalizePauses ("Hi.".toList) :=
  ⟨normalizePauses_eq_flatMap, normalizePauses_twice, by decide⟩

/-- C9: `speak` with empty text resolves immediately with success and
issues no call at all to the platform synthesis object — neither
`cancel` nor `speak`. -/
theorem speak_empty_resolves_without_platform_call
    (opts : SpeakOptions) (sel : Option VoiceDescriptor) :
    speakModel [] opts sel = ([], some true) := rfl

/-- C10: `isSpeechSupported` is the conjunction of the two capabilities:
it is the recognition flag (set when either recognition constructor
exists) and-ed with the synthesis flag, so a synthesis-only platform —
second conjunct — reports speech as unsupported. -/
theorem isSpeechSupported_requires_both_capabilities :
    (∀ a b c : Bool, isSpeechSupported (mkService a b c) = ((a || b) && c)) ∧
    isSpeechSupported (mkService false false true) = false :=
  ⟨fun _ _ _ => rfl, rfl⟩
